import Mathlib

/-!
Verification development for the kv-server repository: a shallow embedding
of the LRU cache (src/cache.cpp), the SQLite-backed store adapter
(src/database.cpp) and the HTTP request handlers (src/server.cpp), together
with theorems settling the specification claims about them.
-/

/-! ## Eviction cache (src/cache.cpp)

The C++ `LRUCache::Impl` keeps a doubly-linked list of `(key, value)`
nodes (front = most recently used) plus an `unordered_map` from key to the
node holding it.  The map is a lookup structure kept in sync with the
list, so the sequential state is faithfully represented by the list alone;
`index.size()` coincides with the list length.  The separate-index view is
modelled explicitly further below (`RawCache`) for the interleaving
analysis. -/

structure LRUCache where
  capacity : Nat
  lru : List (String × String)
  deriving Repr, DecidableEq

/-- Constructor `LRUCache(cap)`: `Impl(cap) : capacity(cap == 0 ? 1 : cap)`
(cache.cpp line 15), starting with an empty list and index. -/
def mkCache (cap : Nat) : LRUCache :=
  { capacity := if cap = 0 then 1 else cap, lru := [] }

/-- `LRUCache::get` (cache.cpp lines 35-43): look the key up in the index;
on miss return false leaving the state unchanged; on hit write the value
out and splice the node to the front (MRU). -/
def LRUCache.get (c : LRUCache) (key : String) : Option String × LRUCache :=
  match c.lru.find? (fun e => e.1 == key) with
  | none => (none, c)
  | some e => (some e.2, { c with lru := e :: c.lru.eraseP (fun e => e.1 == key) })

/-- `LRUCache::put` (cache.cpp lines 45-65): if the key exists, update its
value and splice to the front; otherwise push a new node at the front,
insert it into the index, and if the entry count now exceeds capacity,
erase the back (least recently used) node. -/
def LRUCache.put (c : LRUCache) (key value : String) : LRUCache :=
  if (c.lru.find? (fun e => e.1 == key)).isSome then
    { c with lru := (key, value) :: c.lru.eraseP (fun e => e.1 == key) }
  else
    let l := (key, value) :: c.lru
    if l.length > c.capacity then { c with lru := l.dropLast }
    else { c with lru := l }

/-- `LRUCache::erase` (cache.cpp lines 67-73): remove the entry if present,
returning whether something was erased. -/
def LRUCache.erase (c : LRUCache) (key : String) : Bool × LRUCache :=
  if (c.lru.find? (fun e => e.1 == key)).isSome then
    (true, { c with lru := c.lru.eraseP (fun e => e.1 == key) })
  else (false, c)

/-- `LRUCache::size` (cache.cpp lines 75-77): `index.size()`, which equals
the list length. -/
def LRUCache.size (c : LRUCache) : Nat := c.lru.length

/-- One cache operation, for reasoning about arbitrary call sequences. -/
inductive CacheOp where
  | get (key : String)
  | put (key value : String)
  | erase (key : String)
  deriving Repr, DecidableEq

def applyOp (c : LRUCache) : CacheOp → LRUCache
  | .get k => (c.get k).2
  | .put k v => c.put k v
  | .erase k => (c.erase k).2

def applyOps (c : LRUCache) (ops : List CacheOp) : LRUCache :=
  ops.foldl applyOp c

/-- Folding a list of puts, in order (used for the eviction-order claims). -/
def putAll (c : LRUCache) (ps : List (String × String)) : LRUCache :=
  ps.foldl (fun acc p => acc.put p.1 p.2) c

/-! ## Store adapter (src/database.cpp, SQLite backend)

The durable state is the `kv_store(key TEXT PRIMARY KEY, value TEXT)`
table, one row per key, modelled as a row list; `inited` models whether
`g_db` and the prepared statements are non-null (they are all set by a
successful `db_init` and all cleared by `db_close`).  The only backend
failure representable in a pure model is the guarded not-initialized path,
which the source treats identically to any other failure: it returns
`false` (database.cpp lines 142, 178, 211). -/

structure DBState where
  inited : Bool
  rows : List (String × String)
  deriving Repr, DecidableEq

/-- `db_get` (database.cpp lines 139-173): returns `false` when the handle
or statement is null, `false` when `sqlite3_step` yields no row (not
found) — and also `false` on a step error; on a row, writes the value out
and returns `true`.  The durable state is never changed. -/
def db_get (db : DBState) (key : String) : Bool × String :=
  if !db.inited then (false, "")
  else
    match db.rows.find? (fun r => r.1 == key) with
    | some r => (true, r.2)
    | none => (false, "")

/-- Row replacement for the upsert statement
`INSERT ... ON CONFLICT(key) DO UPDATE SET value=excluded.value`. -/
def upsertRow (rows : List (String × String)) (key value : String) :
    List (String × String) :=
  if (rows.find? (fun r => r.1 == key)).isSome then
    rows.map (fun r => if r.1 == key then (r.1, value) else r)
  else rows ++ [(key, value)]

/-- `db_put` (database.cpp lines 175-206): `false` when not initialized
(state untouched), otherwise performs the upsert and returns `true`. -/
def db_put (db : DBState) (key value : String) : Bool × DBState :=
  if !db.inited then (false, db)
  else (true, { db with rows := upsertRow db.rows key value })

/-- `db_delete` (database.cpp lines 208-237): `false` when not initialized
(state untouched); otherwise runs `DELETE FROM kv_store WHERE key=?` and
returns `sqlite3_changes(g_db) > 0`, i.e. whether a row existed. -/
def db_delete (db : DBState) (key : String) : Bool × DBState :=
  if !db.inited then (false, db)
  else
    ((db.rows.find? (fun r => r.1 == key)).isSome,
     { db with rows := db.rows.filter (fun r => !(r.1 == key)) })

/-- `db_close` (database.cpp lines 239-252): finalizes the statements and
closes the handle, leaving the durable file contents in place. -/
def db_close (db : DBState) : DBState := { db with inited := false }

/-! ## Request handlers (src/server.cpp)

Each handler is embedded as a pure function from the shared cache and
store state plus the already-extracted key (and value) to the response
status, body, and updated states. -/

structure HandlerResult where
  status : Nat
  body : String
  cache : LRUCache
  db : DBState
  deriving Repr, DecidableEq

/-- GET handler (server.cpp lines 125-158): empty key → 400; cache hit →
200 with the cached value; otherwise `db_get`; `false` → 404 ("For this
project, false means not found", line 147); on a store row, populate the
cache and return 200. -/
def handleGet (cache : LRUCache) (db : DBState) (key : String) : HandlerResult :=
  if key = "" then ⟨400, "Missing key", cache, db⟩
  else
    let g := cache.get key
    match g.1 with
    | some value => ⟨200, value, g.2, db⟩
    | none =>
      let d := db_get db key
      if d.1 then ⟨200, d.2, g.2.put key d.2, db⟩
      else ⟨404, "Not found", g.2, db⟩

/-- PUT handler (server.cpp lines 97-122): empty key → 400; `db_put`
failure → 500 with the cache untouched; on success the cache is updated
after the durable write and 200 is returned. -/
def handlePut (cache : LRUCache) (db : DBState) (key value : String) : HandlerResult :=
  if key = "" then ⟨400, "Missing key", cache, db⟩
  else
    let d := db_put db key value
    if d.1 then ⟨200, value, cache.put key value, d.2⟩
    else ⟨500, "DB error", cache, d.2⟩

/-- DELETE handler (server.cpp lines 161-186): empty key → 400; `db_delete`
runs first, then the cache entry is erased unconditionally (best-effort
invalidation, line 175); `db_delete = false` → 404, otherwise 200. -/
def handleDelete (cache : LRUCache) (db : DBState) (key : String) : HandlerResult :=
  if key = "" then ⟨400, "Missing key", cache, db⟩
  else
    let d := db_delete db key
    let e := cache.erase key
    if d.1 then ⟨200, "Deleted", e.2, d.2⟩
    else ⟨404, "Not found", e.2, d.2⟩

/-! ## Interleaved executions of the cache

cache.cpp holds no lock (cache.h: "NOT thread-safe"), and server.cpp calls
`cache.get/put/erase` from its worker threads without any mutex, so the
statements of `LRUCache::put` can interleave across threads.  The model
below splits `put` into its statement-level steps over a state that keeps
the recency list and the key index as the two separate structures the C++
code maintains. -/

structure RawCache where
  lru : List (String × String)
  keyIndex : List String
  capacity : Nat
  deriving Repr, DecidableEq

/-- One statement-level step of `LRUCache::put` (cache.cpp lines 45-65):
the index lookup, the in-place update + splice of the existing-key branch,
the `push_front`, the index insertion, and the eviction check. -/
inductive MicroOp where
  | check (key value : String)
  | updateMove (key value : String)
  | pushFront (key value : String)
  | indexInsert (key : String)
  | maybeEvict
  deriving Repr, DecidableEq

/-- Execute one micro-step against the shared state; `check` returns the
branch the thread continues with, evaluated against the state at the
moment it runs (exactly the `index.find` at cache.cpp line 46). -/
def execOp (s : RawCache) : MicroOp → RawCache × List MicroOp
  | .check k v =>
    if s.keyIndex.contains k then (s, [.updateMove k v])
    else (s, [.pushFront k v, .indexInsert k, .maybeEvict])
  | .updateMove k v => ({ s with lru := (k, v) :: s.lru.eraseP (fun e => e.1 == k) }, [])
  | .pushFront k v => ({ s with lru := (k, v) :: s.lru }, [])
  | .indexInsert k =>
    ({ s with keyIndex := if s.keyIndex.contains k then s.keyIndex else k :: s.keyIndex }, [])
  | .maybeEvict =>
    if s.keyIndex.length > s.capacity then
      match s.lru.getLast? with
      | some tail => ({ s with lru := s.lru.dropLast, keyIndex := s.keyIndex.erase tail.1 }, [])
      | none => (s, [])
    else (s, [])

/-- Run two threads against the shared state; the schedule picks which
thread executes its next micro-step (true = first thread). -/
def runThreads : RawCache → List MicroOp → List MicroOp → List Bool → RawCache
  | s, _, _, [] => s
  | s, t1, t2, b :: bs =>
    if b then
      match t1 with
      | [] => runThreads s [] t2 bs
      | op :: rest =>
        let r := execOp s op
        runThreads r.1 (r.2 ++ rest) t2 bs
    else
      match t2 with
      | [] => runThreads s t1 [] bs
      | op :: rest =>
        let r := execOp s op
        runThreads r.1 t1 (r.2 ++ rest) bs

/-- Mutual consistency of the recency list and the key index, as the spec's
data model states it: every key appears at most once and the index matches
the sequence. -/
def RawConsistent (s : RawCache) : Prop :=
  (s.lru.map Prod.fst).Nodup ∧ s.keyIndex.length = s.lru.length

instance (s : RawCache) : Decidable (RawConsistent s) := by
  unfold RawConsistent; infer_instance

/-- The micro-step program of one `LRUCache.put(k, v)` call. -/
def putThread (key value : String) : List MicroOp := [.check key value]

/-! ## Backing-store connection structure (src/database.cpp lines 20-28)

The SQLite backend declares exactly one connection handle (`g_db`) and one
mutex (`g_db_mu`); there is no array of handles, no per-slot lock array
and no selection counter.  Every operation (`db_get` line 141, `db_put`
line 177, `db_delete` line 210) acquires that single mutex for its whole
duration and uses that single handle. -/

def dbConnectionSlots : Nat := 1

/-- Slot used by the n-th backing-store operation: always the unique
handle `g_db`. -/
def dbSlotOfOperation (_opIndex : Nat) : Nat := 0

/-- Mutex acquired by the n-th backing-store operation: always the single
global `g_db_mu`. -/
def dbLockOfOperation (_opIndex : Nat) : Nat := 0

/-- Modelled from the spec: the slot selection the specification describes
("a monotonically increasing counter modulo pool size selects the slot for
each operation (round-robin)"), which is absent from database.cpp.  The
n-th operation uses slot n mod poolSize. -/
def specSlotOfOperation (poolSize opIndex : Nat) : Nat := opIndex % poolSize

/-! ## Counter-carrying cache (modelled from the spec)

server.cpp's /metrics handler (lines 88-89) reads `cache.hits()` and
`cache.misses()`, but the `LRUCache` defined by cache.h/cache.cpp in the
repository snapshot has no such counters or accessors: the
counter-carrying cache implementation is missing.  `LRUCacheM` models it
from the spec ("Side effect: an internal hit/miss counter for each
outcome"): `get` bumps the hit counter on a hit and the miss counter on a
miss; no other operation changes either counter. -/

structure LRUCacheM where
  base : LRUCache
  hits : Nat
  misses : Nat
  deriving Repr, DecidableEq

def mkCacheM (cap : Nat) : LRUCacheM := { base := mkCache cap, hits := 0, misses := 0 }

/-- Modelled from the spec: `get` with the hit/miss counter side effect;
the lookup and promotion behaviour is `LRUCache::get` from cache.cpp. -/
def LRUCacheM.get (c : LRUCacheM) (key : String) : Option String × LRUCacheM :=
  let g := c.base.get key
  match g.1 with
  | some v => (some v, { c with base := g.2, hits := c.hits + 1 })
  | none => (none, { c with base := g.2, misses := c.misses + 1 })

/-- Modelled from the spec: `put` leaves the hit/miss counters unchanged. -/
def LRUCacheM.put (c : LRUCacheM) (key value : String) : LRUCacheM :=
  { c with base := c.base.put key value }

/-- Modelled from the spec: `erase` leaves the hit/miss counters unchanged. -/
def LRUCacheM.erase (c : LRUCacheM) (key : String) : Bool × LRUCacheM :=
  let e := c.base.erase key
  (e.1, { c with base := e.2 })

/-- Modelled from the spec: `size` reads the entry count only. -/
def LRUCacheM.size (c : LRUCacheM) : Nat := c.base.size

/-- The /metrics handler's cache counters (server.cpp lines 88-89):
`cache_hits` and `cache_misses` are read straight from the cache's
accessors. -/
def metricsCacheCounters (c : LRUCacheM) : Nat × Nat := (c.hits, c.misses)

/-- Well-formedness of a sequential cache state: the key index admits each
key at most once (it is an `unordered_map`), and the entry count never
exceeds the capacity.  Every state reachable through the C++ interface
satisfies this. -/
def WF (c : LRUCache) : Prop :=
  (c.lru.map Prod.fst).Nodup ∧ c.lru.length ≤ c.capacity

instance (c : LRUCache) : Decidable (WF c) := by
  unfold WF; infer_instance

-- sanity checks (sequential semantics against the repository's unit tests)
example : ((mkCache 2).put "a" "1" |>.put "b" "2" |>.put "c" "3").size = 2 := by decide
example : (((mkCache 2).put "a" "1" |>.put "b" "2" |>.put "c" "3").get "a").1 = none := by decide
example :
    (handleGet (mkCache 1) { inited := true, rows := [("k", "v")] } "k").status = 200 := by
  decide
example :
    (handleGet (mkCache 1) { inited := false, rows := [("k", "v")] } "k").status = 404 := by
  decide

/-! ## Helper lemmas about key lookup and removal -/

theorem find?_key_none {l : List (String × String)} {k : String}
    (h : k ∉ l.map Prod.fst) : l.find? (fun e => e.1 == k) = none := by
  rw [List.find?_eq_none]
  intro x hx
  simp only [beq_iff_eq]
  intro hxk
  exact h (hxk ▸ List.mem_map_of_mem Prod.fst hx)

theorem key_of_find? {l : List (String × String)} {k : String} {e : String × String}
    (h : l.find? (fun e => e.1 == k) = some e) : e.1 = k := by
  have hp := List.find?_some h
  exact beq_iff_eq.mp hp

theorem map_fst_eraseP (l : List (String × String)) (k : String) :
    (l.eraseP (fun e => e.1 == k)).map Prod.fst =
      (l.map Prod.fst).eraseP (fun s => s == k) := by
  induction l with
  | nil => rfl
  | cons x xs ih =>
    by_cases hp : (x.1 == k) = true
    · simp [List.eraseP_cons, hp]
    · simp [List.eraseP_cons, hp, ih]

theorem not_mem_eraseP_self {ks : List String} (hnd : ks.Nodup) (k : String) :
    k ∉ ks.eraseP (fun s => s == k) := by
  induction ks with
  | nil => simp
  | cons x xs ih =>
    obtain ⟨hx, hxs⟩ := List.nodup_cons.mp hnd
    by_cases hp : (x == k) = true
    · have hxk : x = k := beq_iff_eq.mp hp
      subst hxk
      simpa [List.eraseP_cons, hp] using hx
    · have hkx : ¬ k = x := fun h => hp (by simp [h])
      simp [List.eraseP_cons, hp, hkx]
      exact ih hxs

/-! ## Structural lemmas about the cache operations -/

theorem capacity_get (c : LRUCache) (k : String) : ((c.get k).2).capacity = c.capacity := by
  unfold LRUCache.get
  split <;> rfl

theorem capacity_put (c : LRUCache) (k v : String) : (c.put k v).capacity = c.capacity := by
  unfold LRUCache.put
  split
  · rfl
  · dsimp only
    split <;> rfl

theorem capacity_erase (c : LRUCache) (k : String) : ((c.erase k).2).capacity = c.capacity := by
  unfold LRUCache.erase
  split <;> rfl

theorem get_fst_eq_none_of_find? {c : LRUCache} {k : String}
    (h : c.lru.find? (fun e => e.1 == k) = none) : (c.get k).1 = none := by
  unfold LRUCache.get
  rw [h]

theorem get_fst_isSome_of_find? {c : LRUCache} {k : String} {e : String × String}
    (h : c.lru.find? (fun e => e.1 == k) = some e) : ((c.get k).1).isSome := by
  unfold LRUCache.get
  rw [h]
  rfl

theorem WF_mkCache (cap : Nat) : WF (mkCache cap) := by
  constructor
  · simp [mkCache]
  · simp [mkCache]

theorem capacity_mkCache (cap : Nat) : (mkCache cap).capacity = max cap 1 := by
  unfold mkCache
  rcases cap with _ | n
  · rfl
  · simp only [Nat.succ_ne_zero, if_false]
    rw [max_eq_left (Nat.succ_le_succ (Nat.zero_le n))]

theorem WF_get {c : LRUCache} (h : WF c) (k : String) : WF ((c.get k).2) := by
  obtain ⟨hnd, hlen⟩ := h
  unfold LRUCache.get
  cases hf : c.lru.find? (fun e => e.1 == k) with
  | none => exact ⟨hnd, hlen⟩
  | some e =>
    have hek : e.1 = k := key_of_find? hf
    have hmem : e ∈ c.lru := List.mem_of_find?_eq_some hf
    constructor
    · simp only [List.map_cons, map_fst_eraseP]
      refine List.nodup_cons.mpr ⟨?_, ?_⟩
      · rw [hek]
        exact not_mem_eraseP_self hnd k
      · exact (List.eraseP_sublist _).nodup hnd
    · have he : (c.lru.eraseP (fun e => e.1 == k)).length = c.lru.length - 1 :=
        List.length_eraseP_of_mem hmem (by simp [hek])
      have hpos : 0 < c.lru.length := List.length_pos.mpr (List.ne_nil_of_mem hmem)
      simp only [List.length_cons, he]
      omega

theorem WF_put {c : LRUCache} (h : WF c) (k v : String) : WF (c.put k v) := by
  obtain ⟨hnd, hlen⟩ := h
  unfold LRUCache.put
  by_cases hf : (c.lru.find? (fun e => e.1 == k)).isSome
  · rw [if_pos hf]
    obtain ⟨e, he⟩ := Option.isSome_iff_exists.mp hf
    have hek : e.1 = k := key_of_find? he
    have hmem : e ∈ c.lru := List.mem_of_find?_eq_some he
    constructor
    · simp only [List.map_cons, map_fst_eraseP]
      refine List.nodup_cons.mpr ⟨?_, ?_⟩
      · exact not_mem_eraseP_self hnd k
      · exact (List.eraseP_sublist _).nodup hnd
    · have helen : (c.lru.eraseP (fun e => e.1 == k)).length = c.lru.length - 1 :=
        List.length_eraseP_of_mem hmem (by simp [hek])
      have hpos : 0 < c.lru.length := List.length_pos.mpr (List.ne_nil_of_mem hmem)
      simp only [List.length_cons, helen]
      omega
  · rw [if_neg hf]
    have hfnone : c.lru.find? (fun e => e.1 == k) = none :=
      Option.not_isSome_iff_eq_none.mp hf
    have hknot : k ∉ c.lru.map Prod.fst := by
      intro hkin
      obtain ⟨x, hx, hxk⟩ := List.mem_map.mp hkin
      have hnx := List.find?_eq_none.mp hfnone x hx
      simp [hxk] at hnx
    have hnd1 : (((k, v) :: c.lru).map Prod.fst).Nodup := by
      simp only [List.map_cons]
      exact List.nodup_cons.mpr ⟨hknot, hnd⟩
    dsimp only
    by_cases hlong : ((k, v) :: c.lru).length > c.capacity
    · rw [if_pos hlong]
      constructor
      · exact ((List.dropLast_sublist _).map Prod.fst).nodup hnd1
      · simp only [List.length_dropLast, List.length_cons]
        omega
    · rw [if_neg hlong]
      refine ⟨hnd1, ?_⟩
      simp only [List.length_cons] at hlong ⊢
      omega

theorem WF_erase {c : LRUCache} (h : WF c) (k : String) : WF ((c.erase k).2) := by
  obtain ⟨hnd, hlen⟩ := h
  unfold LRUCache.erase
  by_cases hf : (c.lru.find? (fun e => e.1 == k)).isSome
  · rw [if_pos hf]
    constructor
    · exact ((List.eraseP_sublist _).map Prod.fst).nodup hnd
    · exact le_trans (List.eraseP_sublist _).length_le hlen
  · rw [if_neg hf]
    exact ⟨hnd, hlen⟩

theorem WF_applyOp {c : LRUCache} (h : WF c) (op : CacheOp) : WF (applyOp c op) := by
  cases op with
  | get k => exact WF_get h k
  | put k v => exact WF_put h k v
  | erase k => exact WF_erase h k

theorem capacity_applyOp (c : LRUCache) (op : CacheOp) :
    (applyOp c op).capacity = c.capacity := by
  cases op with
  | get k => exact capacity_get c k
  | put k v => exact capacity_put c k v
  | erase k => exact capacity_erase c k

theorem WF_applyOps {c : LRUCache} (h : WF c) (ops : List CacheOp) :
    WF (applyOps c ops) := by
  induction ops generalizing c with
  | nil => exact h
  | cons op rest ih => exact ih (WF_applyOp h op)

theorem capacity_applyOps (c : LRUCache) (ops : List CacheOp) :
    (applyOps c ops).capacity = c.capacity := by
  induction ops generalizing c with
  | nil => rfl
  | cons op rest ih => rw [applyOps, List.foldl_cons, ← applyOps, ih, capacity_applyOp]

/-! ## Lemmas about sequences of fresh-key puts -/

theorem take_append_take {α : Type} (a l : List α) (n : Nat) :
    (a ++ l.take n).take n = (a ++ l).take n := by
  rw [List.take_append_eq_append_take, List.take_append_eq_append_take, List.take_take]
  congr 1
  rw [Nat.min_eq_left (Nat.sub_le n a.length)]

theorem put_fresh_lru {c : LRUCache} {k : String} (v : String)
    (hk : k ∉ c.lru.map Prod.fst) (hlen : c.lru.length ≤ c.capacity) :
    (c.put k v).lru = ((k, v) :: c.lru).take c.capacity := by
  unfold LRUCache.put
  rw [find?_key_none hk]
  simp only [Option.isSome_none, Bool.false_eq_true, if_false]
  by_cases hlong : ((k, v) :: c.lru).length > c.capacity
  · rw [if_pos hlong]
    have h1 : c.lru.length = c.capacity := by
      simp only [List.length_cons] at hlong
      omega
    rw [List.dropLast_eq_take]
    simp [h1]
  · rw [if_neg hlong]
    have h2 : ((k, v) :: c.lru).length ≤ c.capacity := by omega
    rw [List.take_of_length_le h2]

theorem putAll_fresh (ps : List (String × String)) :
    ∀ (c : LRUCache),
      (∀ p ∈ ps, p.1 ∉ c.lru.map Prod.fst) →
      (ps.map Prod.fst).Nodup →
      c.lru.length ≤ c.capacity →
      (putAll c ps).lru = (ps.reverse ++ c.lru).take c.capacity ∧
        (putAll c ps).capacity = c.capacity := by
  induction ps with
  | nil =>
    intro c _ _ hlen
    exact ⟨(List.take_of_length_le hlen).symm, rfl⟩
  | cons p rest ih =>
    intro c hfresh hnd hlen
    have hp : p.1 ∉ c.lru.map Prod.fst := hfresh p (List.mem_cons_self p rest)
    have hput : (c.put p.1 p.2).lru = ((p.1, p.2) :: c.lru).take c.capacity :=
      put_fresh_lru p.2 hp hlen
    have hcap : (c.put p.1 p.2).capacity = c.capacity := capacity_put c p.1 p.2
    have hsub : ∀ q ∈ rest, q.1 ∉ (c.put p.1 p.2).lru.map Prod.fst := by
      intro q hq hmem
      rw [hput] at hmem
      have hmem2 : q.1 ∈ ((p.1, p.2) :: c.lru).map Prod.fst :=
        List.map_subset Prod.fst (List.take_subset _ _) hmem
      simp only [List.map_cons, List.mem_cons] at hmem2
      rcases hmem2 with h1 | h2
      · have hnp : p.1 ∉ rest.map Prod.fst := (List.nodup_cons.mp hnd).1
        exact hnp (h1 ▸ List.mem_map_of_mem Prod.fst hq)
      · exact hfresh q (List.mem_cons_of_mem p hq) h2
    have hlen2 : (c.put p.1 p.2).lru.length ≤ (c.put p.1 p.2).capacity := by
      rw [hput, hcap]
      exact List.length_take_le _ _
    have hnd2 : (rest.map Prod.fst).Nodup := (List.nodup_cons.mp hnd).2
    obtain ⟨hlru, hc⟩ := ih (c.put p.1 p.2) hsub hnd2 hlen2
    have hstep : putAll c (p :: rest) = putAll (c.put p.1 p.2) rest := rfl
    constructor
    · rw [hstep, hlru, hput, hcap, take_append_take]
      congr 1
      rw [List.reverse_cons, List.append_assoc]
      congr 1
    · rw [hstep, hc, hcap]

/-! ## Claim theorems -/

/-- C6: for every configured capacity C (with C = 0 coerced to 1) and every
finite sequence of get, put and erase operations applied to an initially
empty eviction cache, after each operation the number of stored entries is
at most max(C, 1) and each key appears at most once. -/
theorem C6_capacity_invariant (C : Nat) (ops : List CacheOp) :
    (applyOps (mkCache C) ops).size ≤ max C 1 ∧
      ((applyOps (mkCache C) ops).lru.map Prod.fst).Nodup := by
  obtain ⟨hnd, hlen⟩ := WF_applyOps (WF_mkCache C) ops
  refine ⟨?_, hnd⟩
  have hcap := capacity_applyOps (mkCache C) ops
  rw [capacity_mkCache] at hcap
  unfold LRUCache.size
  rw [← hcap]
  exact hlen

/-- C7: with capacity N ≥ 1 and a sequence of N+1 puts with pairwise
distinct keys and no intervening gets applied to an initially empty
eviction cache, exactly the first-inserted key has been evicted: a cache
get on it misses, while a get on each of the other N keys hits. -/
theorem C7_first_key_evicted (N : Nat) (hN : 1 ≤ N) (p0 : String × String)
    (rest : List (String × String)) (hlen : rest.length = N)
    (hnd : ((p0 :: rest).map Prod.fst).Nodup) :
    ((putAll (mkCache N) (p0 :: rest)).get p0.1).1 = none ∧
      ∀ p ∈ rest, (((putAll (mkCache N) (p0 :: rest)).get p.1).1).isSome := by
  have hcapm : (mkCache N).capacity = N := by
    rw [capacity_mkCache]
    exact max_eq_left hN
  have hfr : ∀ p ∈ p0 :: rest, p.1 ∉ (mkCache N).lru.map Prod.fst := by
    intro p _ hmem
    simp [mkCache] at hmem
  obtain ⟨hlru, _⟩ :=
    putAll_fresh (p0 :: rest) (mkCache N) hfr hnd (by simp [mkCache])
  have hres : (putAll (mkCache N) (p0 :: rest)).lru = rest.reverse := by
    rw [hlru, hcapm]
    have hmk : (mkCache N).lru = [] := rfl
    rw [hmk, List.append_nil, List.reverse_cons, List.take_append_eq_append_take]
    have hrl : rest.reverse.length = N := by simp [hlen]
    rw [List.take_of_length_le (le_of_eq hrl), hrl, Nat.sub_self]
    simp
  constructor
  · apply get_fst_eq_none_of_find?
    rw [hres]
    apply find?_key_none
    have hn : p0.1 ∉ rest.map Prod.fst := (List.nodup_cons.mp hnd).1
    simpa [List.map_reverse, List.mem_reverse] using hn
  · intro p hp
    have hmem : p ∈ rest.reverse := List.mem_reverse.mpr hp
    have hsome : ((rest.reverse).find? (fun e => e.1 == p.1)).isSome :=
      List.find?_isSome.mpr ⟨p, hmem, by simp⟩
    obtain ⟨e, he⟩ := Option.isSome_iff_exists.mp hsome
    apply get_fst_isSome_of_find?
    rw [hres]
    exact he

/-- Witness for C7: capacity 1, puts of ("a","1") then ("b","2"); the get
on "a" misses and the get on "b" hits. -/
theorem C7_first_key_evicted_witness :
    ((putAll (mkCache 1) [("a", "1"), ("b", "2")]).get "a").1 = none ∧
      ∀ p ∈ [("b", "2")],
        (((putAll (mkCache 1) [("a", "1"), ("b", "2")]).get p.1).1).isSome :=
  C7_first_key_evicted 1 (by decide) ("a", "1") [("b", "2")] rfl (by decide)

theorem erase_get_none {c : LRUCache} (hnd : (c.lru.map Prod.fst).Nodup)
    (k : String) : (((c.erase k).2).get k).1 = none := by
  unfold LRUCache.erase
  by_cases hf : (c.lru.find? (fun e => e.1 == k)).isSome
  · rw [if_pos hf]
    apply get_fst_eq_none_of_find?
    apply find?_key_none
    show k ∉ (c.lru.eraseP (fun e => e.1 == k)).map Prod.fst
    rw [map_fst_eraseP]
    exact not_mem_eraseP_self hnd k
  · rw [if_neg hf]
    exact get_fst_eq_none_of_find? (Option.not_isSome_iff_eq_none.mp hf)

theorem db_put_fail_state {db : DBState} {k v : String}
    (h : (db_put db k v).1 = false) : (db_put db k v).2 = db := by
  cases hi : db.inited with
  | false => simp [db_put, hi]
  | true => simp [db_put, hi] at h

/-- C3: for every Upsert, the durable store write precedes any cache
mutation: when the store write fails the handler reports 500 and leaves
the eviction cache (and the store) completely unchanged; when it succeeds
the handler reports 200, the store holds the upserted row and only then is
the cache updated with the same pair. -/
theorem C3_write_through (c : LRUCache) (db : DBState) (k v : String)
    (hk : k ≠ "") :
    ((db_put db k v).1 = false →
      (handlePut c db k v).status = 500 ∧ (handlePut c db k v).cache = c ∧
        (handlePut c db k v).db = db) ∧
    ((db_put db k v).1 = true →
      (handlePut c db k v).status = 200 ∧
        (handlePut c db k v).cache = c.put k v ∧
        (handlePut c db k v).db = (db_put db k v).2) := by
  constructor
  · intro hfail
    have hst := db_put_fail_state hfail
    simp [handlePut, hk, hfail, hst]
  · intro hok
    simp [handlePut, hk, hok]

/-- Witness for C3: an uninitialized store rejects the write and the cache
stays empty; an initialized one accepts it and the cache is updated. -/
theorem C3_write_through_witness :
    ((db_put ⟨false, []⟩ "k" "v").1 = false →
      (handlePut (mkCache 2) ⟨false, []⟩ "k" "v").status = 500 ∧
        (handlePut (mkCache 2) ⟨false, []⟩ "k" "v").cache = mkCache 2 ∧
        (handlePut (mkCache 2) ⟨false, []⟩ "k" "v").db = ⟨false, []⟩) ∧
    ((db_put ⟨false, []⟩ "k" "v").1 = true →
      (handlePut (mkCache 2) ⟨false, []⟩ "k" "v").status = 200 ∧
        (handlePut (mkCache 2) ⟨false, []⟩ "k" "v").cache = (mkCache 2).put "k" "v" ∧
        (handlePut (mkCache 2) ⟨false, []⟩ "k" "v").db = (db_put ⟨false, []⟩ "k" "v").2) :=
  C3_write_through (mkCache 2) ⟨false, []⟩ "k" "v" (by decide)

/-- C4: for every Delete, the cache entry for the key is erased regardless
of the store outcome — a subsequent cache lookup of the key misses even on
a store error — and with a live store the handler reports 200 exactly when
a row existed and 404 when it did not. -/
theorem C4_delete_invalidates (c : LRUCache) (hnd : (c.lru.map Prod.fst).Nodup)
    (db : DBState) (k : String) (hk : k ≠ "") :
    (((handleDelete c db k).cache.get k).1 = none) ∧
      (db.inited = true →
        (((db.rows.find? (fun r => r.1 == k)).isSome →
            (handleDelete c db k).status = 200) ∧
          (db.rows.find? (fun r => r.1 == k) = none →
            (handleDelete c db k).status = 404))) := by
  constructor
  · have hcache : (handleDelete c db k).cache = (c.erase k).2 := by
      unfold handleDelete
      rw [if_neg hk]
      dsimp only
      split <;> rfl
    rw [hcache]
    exact erase_get_none hnd k
  · intro hinit
    constructor
    · intro hsome
      have hd : (db_delete db k).1 = true := by
        simp [db_delete, hinit, hsome]
      simp [handleDelete, hk, hd]
    · intro hnone
      have hd : (db_delete db k).1 = false := by
        simp [db_delete, hinit, hnone]
      simp [handleDelete, hk, hd]

/-- Witness for C4: deleting "k" invalidates the cached entry and reports
200 because the store row existed. -/
theorem C4_delete_invalidates_witness :
    ((((handleDelete { capacity := 2, lru := [("k", "old")] }
          ⟨true, [("k", "v")]⟩ "k").cache).get "k").1 = none) ∧
      ((⟨true, [("k", "v")]⟩ : DBState).inited = true →
        ((((⟨true, [("k", "v")]⟩ : DBState).rows.find?
              (fun r => r.1 == "k")).isSome →
            (handleDelete { capacity := 2, lru := [("k", "old")] }
              ⟨true, [("k", "v")]⟩ "k").status = 200) ∧
          ((⟨true, [("k", "v")]⟩ : DBState).rows.find?
              (fun r => r.1 == "k") = none →
            (handleDelete { capacity := 2, lru := [("k", "old")] }
              ⟨true, [("k", "v")]⟩ "k").status = 404))) :=
  C4_delete_invalidates { capacity := 2, lru := [("k", "old")] } (by decide)
    ⟨true, [("k", "v")]⟩ "k" (by decide)

/-- C8: with an empty eviction cache (capacity at least 1, as the
constructor guarantees) and a live store, Read(k) returns the stored value
and populates the cache — a subsequent cache-only get of k hits with that
value — while with no row for k it returns not-found and leaves the cache
untouched. -/
theorem C8_read_through (c : LRUCache) (hc : c.lru = []) (hcap : 1 ≤ c.capacity)
    (db : DBState) (hinit : db.inited = true) (k v : String) (hk : k ≠ "") :
    (db.rows.find? (fun r => r.1 == k) = some (k, v) →
      (handleGet c db k).status = 200 ∧ (handleGet c db k).body = v ∧
        (((handleGet c db k).cache).get k).1 = some v) ∧
    (db.rows.find? (fun r => r.1 == k) = none →
      (handleGet c db k).status = 404 ∧ (handleGet c db k).cache = c ∧
        (handleGet c db k).db = db) := by
  have hmiss : c.get k = (none, c) := by
    unfold LRUCache.get
    rw [hc]
    rfl
  have hputlru : (c.put k v).lru = [(k, v)] := by
    unfold LRUCache.put
    rw [hc]
    have h1 : ¬ ((k, v) :: ([] : List (String × String))).length > c.capacity := by
      simp only [List.length_cons, List.length_nil]
      omega
    have h0 : ¬ c.capacity = 0 := by omega
    simp [h1, h0]
  constructor
  · intro hfind
    have hdb : db_get db k = (true, v) := by
      simp [db_get, hinit, hfind]
    refine ⟨?_, ?_, ?_⟩
    · simp [handleGet, hk, hmiss, hdb]
    · simp [handleGet, hk, hmiss, hdb]
    · have hcache : (handleGet c db k).cache = c.put k v := by
        simp [handleGet, hk, hmiss, hdb]
      rw [hcache]
      unfold LRUCache.get
      rw [hputlru]
      simp [List.find?]
  · intro hfind
    have hdb : db_get db k = (false, "") := by
      simp [db_get, hinit, hfind]
    refine ⟨?_, ?_, ?_⟩ <;> simp [handleGet, hk, hmiss, hdb]

/-- Witness for C8: a store holding ("k","v") behind an empty
capacity-one cache. -/
theorem C8_read_through_witness :
    ((⟨true, [("k", "v")]⟩ : DBState).rows.find? (fun r => r.1 == "k") =
        some ("k", "v") →
      (handleGet (mkCache 1) ⟨true, [("k", "v")]⟩ "k").status = 200 ∧
        (handleGet (mkCache 1) ⟨true, [("k", "v")]⟩ "k").body = "v" ∧
        (((handleGet (mkCache 1) ⟨true, [("k", "v")]⟩ "k").cache).get "k").1 =
          some "v") ∧
    ((⟨true, [("k", "v")]⟩ : DBState).rows.find? (fun r => r.1 == "k") = none →
      (handleGet (mkCache 1) ⟨true, [("k", "v")]⟩ "k").status = 404 ∧
        (handleGet (mkCache 1) ⟨true, [("k", "v")]⟩ "k").cache = mkCache 1 ∧
        (handleGet (mkCache 1) ⟨true, [("k", "v")]⟩ "k").db =
          ⟨true, [("k", "v")]⟩) :=
  C8_read_through (mkCache 1) rfl (by decide) ⟨true, [("k", "v")]⟩ rfl "k" "v"
    (by decide)

/-- C10: calling db_get, db_put or db_delete when the database was never
successfully initialized (or after db_close, which clears the handle)
returns false — the guard at the top of each operation returns before the
null handle or statements would be used — and leaves the durable state
unchanged. -/
theorem C10_uninitialized_safe (db db2 : DBState) (h : db.inited = false)
    (k v : String) :
    db_get db k = (false, "") ∧ db_put db k v = (false, db) ∧
      db_delete db k = (false, db) ∧ (db_close db2).inited = false := by
  refine ⟨?_, ?_, ?_, rfl⟩ <;> simp [db_get, db_put, db_delete, h]

/-- Witness for C10: a closed-handle state over a non-empty durable file. -/
theorem C10_uninitialized_safe_witness :
    db_get ⟨false, [("a", "b")]⟩ "k" = (false, "") ∧
      db_put ⟨false, [("a", "b")]⟩ "k" "v" = (false, ⟨false, [("a", "b")]⟩) ∧
      db_delete ⟨false, [("a", "b")]⟩ "k" = (false, ⟨false, [("a", "b")]⟩) ∧
      (db_close ⟨true, []⟩).inited = false :=
  C10_uninitialized_safe ⟨false, [("a", "b")]⟩ ⟨true, []⟩ rfl "k" "v"

/-- C9: the counter-carrying eviction cache maintains hit and miss
counters: a get that finds its key increments the hit counter by exactly
one and leaves the miss counter alone; a get that misses increments the
miss counter by exactly one and leaves the hit counter alone; put and
erase change neither; and the /metrics readout exposes exactly the two
counters. -/
theorem C9_hit_miss_counters (c : LRUCacheM) (k k2 v : String) :
    ((c.get k).2).hits =
        (if ((c.base.get k).1).isSome then c.hits + 1 else c.hits) ∧
      ((c.get k).2).misses =
        (if ((c.base.get k).1).isSome then c.misses else c.misses + 1) ∧
      (c.get k).1 = (c.base.get k).1 ∧
      (c.put k2 v).hits = c.hits ∧ (c.put k2 v).misses = c.misses ∧
      ((c.erase k2).2).hits = c.hits ∧ ((c.erase k2).2).misses = c.misses ∧
      metricsCacheCounters c = (c.hits, c.misses) := by
  unfold LRUCacheM.get LRUCacheM.put LRUCacheM.erase metricsCacheCounters
  cases hg : (c.base.get k).1 <;> simp [hg]

/-- C2: interleaved execution witness — two concurrent put("k","v") calls
on a capacity-1 cache, stepped at the statement level with no lock (as in
cache.cpp, which holds no mutex, called from server.cpp's worker threads
without one), leave the recency list and the key index mutually
inconsistent: the key sits in the list twice while the index holds a
single entry, so the claimed whole-operation mutual exclusion does not
exist in the code. -/
theorem C2_unsynchronized_race :
    ¬ RawConsistent (runThreads { lru := [], keyIndex := [], capacity := 1 }
        (putThread "k" "v") (putThread "k" "v")
        [true, false, true, true, true, false, false, false]) ∧
      (runThreads { lru := [], keyIndex := [], capacity := 1 }
        (putThread "k" "v") (putThread "k" "v")
        [true, false, true, true, true, false, false, false]).lru.length = 2 ∧
      (runThreads { lru := [], keyIndex := [], capacity := 1 }
        (putThread "k" "v") (putThread "k" "v")
        [true, false, true, true, true, false, false, false]).keyIndex.length = 1 := by
  decide

/-- C5 (amended): the backing store's connection state is a single global
handle guarded by a single global mutex — every operation uses the one
slot under the one lock, so all backing-store operations serialize
pairwise; there is no selection counter and no pool of independent
handles. -/
theorem C5_single_slot (i j : Nat) :
    dbSlotOfOperation i = dbSlotOfOperation j ∧
      dbLockOfOperation i = dbLockOfOperation j ∧
      dbConnectionSlots = 1 ∧ dbSlotOfOperation i < dbConnectionSlots :=
  ⟨rfl, rfl, rfl, Nat.zero_lt_one⟩

/-- C5 counterexample: with the pool of two slots the claim describes,
round-robin selection sends consecutive operations to distinct slots
(which may then proceed concurrently), but in database.cpp consecutive
operations use the same single handle and contend on the same single
mutex. -/
theorem C5_no_round_robin :
    specSlotOfOperation 2 0 ≠ specSlotOfOperation 2 1 ∧
      dbSlotOfOperation 0 = dbSlotOfOperation 1 ∧
      dbLockOfOperation 0 = dbLockOfOperation 1 := by
  decide

/-- C1 counterexample: a Read against a failed backend (handle closed,
durable file still holding the row for "k") produces a response
indistinguishable from a Read of an absent key against a live store — both
are 404 "Not found" — so the dispatcher does not preserve the
not-found/error distinction. -/
theorem C1_error_indistinguishable :
    ((handleGet (mkCache 1) ⟨false, [("k", "v")]⟩ "k").status,
        (handleGet (mkCache 1) ⟨false, [("k", "v")]⟩ "k").body) =
      ((handleGet (mkCache 1) ⟨true, []⟩ "k").status,
        (handleGet (mkCache 1) ⟨true, []⟩ "k").body) := by
  decide

/-- C1 (amended): the store adapter returns a single boolean for get and
delete in which not-found and backend failure coincide (`db_get` yields
false for an absent row and for a dead handle alike, `db_delete` likewise),
and the dispatcher maps both situations to the same 404 response for Read
and Delete; only Upsert reports a backend failure distinctly (500 versus
200). -/
theorem C1_conflated_outcomes (k : String) (hk : k ≠ "")
    (rows : List (String × String)) :
    (db_get ⟨false, rows⟩ k).1 = false ∧
      (db_get ⟨true, []⟩ k).1 = false ∧
      (db_delete ⟨false, rows⟩ k).1 = false ∧
      (db_delete ⟨true, []⟩ k).1 = false ∧
      (handleGet (mkCache 1) ⟨false, rows⟩ k).status = 404 ∧
      (handleGet (mkCache 1) ⟨true, []⟩ k).status = 404 ∧
      (handleDelete (mkCache 1) ⟨false, rows⟩ k).status = 404 ∧
      (handleDelete (mkCache 1) ⟨true, []⟩ k).status = 404 ∧
      (handlePut (mkCache 1) ⟨false, rows⟩ k "v").status = 500 ∧
      (handlePut (mkCache 1) ⟨true, []⟩ k "v").status = 200 := by
  have hmiss : (mkCache 1).get k = (none, mkCache 1) := rfl
  have herase : (mkCache 1).erase k = (false, mkCache 1) := rfl
  refine ⟨?_, ?_, ?_, ?_, ?_, ?_, ?_, ?_, ?_, ?_⟩ <;>
    simp [db_get, db_delete, db_put, handleGet, handleDelete, handlePut, hk,
      hmiss, herase]

/-- Witness for C1 (amended) at key "k" over a durable file with one row. -/
theorem C1_conflated_outcomes_witness :
    (db_get ⟨false, [("a", "b")]⟩ "k").1 = false ∧
      (db_get ⟨true, []⟩ "k").1 = false ∧
      (db_delete ⟨false, [("a", "b")]⟩ "k").1 = false ∧
      (db_delete ⟨true, []⟩ "k").1 = false ∧
      (handleGet (mkCache 1) ⟨false, [("a", "b")]⟩ "k").status = 404 ∧
      (handleGet (mkCache 1) ⟨true, []⟩ "k").status = 404 ∧
      (handleDelete (mkCache 1) ⟨false, [("a", "b")]⟩ "k").status = 404 ∧
      (handleDelete (mkCache 1) ⟨true, []⟩ "k").status = 404 ∧
      (handlePut (mkCache 1) ⟨false, [("a", "b")]⟩ "k" "v").status = 500 ∧
      (handlePut (mkCache 1) ⟨true, []⟩ "k" "v").status = 200 :=
  C1_conflated_outcomes "k" (by decide) [("a", "b")]
